import Mathlib

/-!
Shallow embedding of the UFL symbolic form-algebra core
(src/ufl/base.py, src/ufl/indexed.py, src/ufl/form.py),
with collaborators that are not under src (ufl.integral, ufl.indexing,
ufl.indexutils, expression operator overloads) modelled from the spec.

Python exceptions raised by `error(...)` / `ufl_assert(...)` are modelled
as `Except UflError`; process-wide and per-instance mutable state is
modelled by explicit state passing.
-/

namespace UflSpec

/-- Errors raised synchronously at construction time. `assertionFailed`
models `ufl_assert` (internal-invariant assertions); the other
constructors model the `error(...)` calls of src/ufl/indexed.py, each
carrying the data the corresponding message interpolates. -/
inductive UflError where
  | assertionFailed (msg : String)
  | rankMismatch (numIndices : Nat) (rank : Nat)
  | fixedIndexOutOfRange
  | alreadyIndexed
deriving DecidableEq, Repr

instance {ε α : Type} [DecidableEq ε] [DecidableEq α] :
    DecidableEq (Except ε α) := fun a b =>
  match a, b with
  | .ok x, .ok y =>
    decidable_of_iff (x = y) ⟨fun h => h ▸ rfl, fun h => by injection h⟩
  | .error x, .error y =>
    decidable_of_iff (x = y) ⟨fun h => h ▸ rfl, fun h => by injection h⟩
  | .ok _, .error _ => isFalse (fun h => Except.noConfusion h)
  | .error _, .ok _ => isFalse (fun h => Except.noConfusion h)

/-! ## Zero tensors (src/ufl/base.py, lines 143-172) -/

/-- Tensor shape: a tuple of dimension sizes. -/
abbrev Shape := List Nat

/-- ZeroType terminal (src/ufl/base.py lines 143-161): identified solely
by its shape field `_shape`. -/
structure ZeroType where
  shape : Shape
deriving DecidableEq, Repr

/-- ZeroType equality operator (src/ufl/base.py lines 160-161):
`isinstance(other, ZeroType) and self._shape == other._shape`; the
isinstance test is discharged by the Lean type. -/
def ZeroType.eqOp (z w : ZeroType) : Bool :=
  decide (z.shape = w.shape)

/-- The process-wide `_zero_cache` dict (src/ufl/base.py line 163),
modelled as an association list passed explicitly. -/
abbrev ZeroCache := List (Shape × ZeroType)

/-- Dictionary lookup by key equality, modelling `shape in _zero_cache`
followed by `_zero_cache[shape]`. -/
def cacheLookup : ZeroCache → Shape → Option ZeroType
  | [], _ => none
  | (s, z) :: rest, t => if s = t then some z else cacheLookup rest t

/-- The zero-tensor factory (src/ufl/base.py lines 164-169): return the
cached instance for `shape` if present, else create one, cache it and
return it. State (the cache) is threaded explicitly. -/
def zero_tensor (cache : ZeroCache) (shape : Shape) : ZeroType × ZeroCache :=
  match cacheLookup cache shape with
  | some z => (z, cache)
  | none => ((⟨shape⟩ : ZeroType), (shape, (⟨shape⟩ : ZeroType)) :: cache)

/-- Well-formedness of the zero cache: every entry maps a shape to the
zero tensor of that very shape. Holds for the empty initial cache and is
preserved by `zero_tensor`. -/
def ZeroCacheWF (c : ZeroCache) : Prop :=
  ∀ p ∈ c, (p.2).shape = p.1

instance : DecidablePred ZeroCacheWF := fun c =>
  decidable_of_iff (∀ p ∈ c, (p.2).shape = p.1) Iff.rfl

/-! ## Expression trees, structural equality and hashing (src/ufl/base.py) -/

/-- Expression trees in the scope of src/ufl/base.py: the two terminal
families defined there (ZeroType, identified by shape; FloatValue,
wrapping a scalar value) plus operator nodes following the default Expr
contract (`operands()` returns the ordered children). Distinct operator
classes are distinguished by a `kind` tag. FloatValue's float payload is
modelled as an integer, since only equality of values is ever used. -/
inductive UExpr where
  | zeroT (shape : Shape)
  | floatV (value : Int)
  | opNode (kind : Nat) (ops : List UExpr)

/-- Python classes of expression nodes, the values `type(...)` takes. -/
inductive NType where
  | zeroT
  | floatV
  | opNode (kind : Nat)
deriving DecidableEq, Repr

/-- The `type(e)` of a node. -/
def UExpr.nodeType : UExpr → NType
  | .zeroT _ => .zeroT
  | .floatV _ => .floatV
  | .opNode k _ => .opNode k

/-- The `operands()` of a node: empty for terminals
(src/ufl/base.py lines 127-129), the children for operator nodes. -/
def UExpr.operands : UExpr → List UExpr
  | .zeroT _ => []
  | .floatV _ => []
  | .opNode _ os => os

mutual

/-- Structural equality `a == b` as dispatched by Python: ZeroType
compares shapes (base.py lines 160-161), FloatValue compares values
(base.py lines 192-198), and operator nodes use the default
`Expr.__eq__` (base.py lines 97-105): same type and elementwise equal
operand tuples. -/
def exprEq : UExpr → UExpr → Bool
  | .zeroT s, .zeroT t => decide (s = t)
  | .zeroT _, _ => false
  | .floatV v, .floatV w => decide (v = w)
  | .floatV _, _ => false
  | .opNode k os, .opNode l ps => decide (k = l) && exprListEq os ps
  | .opNode _ _, _ => false

/-- Python tuple equality on operand tuples: equal lengths and
elementwise `==`. -/
def exprListEq : List UExpr → List UExpr → Bool
  | [], [] => true
  | a :: as, b :: bs => exprEq a b && exprListEq as bs
  | _, _ => false

end

/-- The inner `typetuple(e)` of `Expr.__hash__`
(src/ufl/base.py lines 91-92): the tuple of the operand classes. -/
def typetuple (e : UExpr) : List NType :=
  e.operands.map UExpr.nodeType

/-- The tuple hashed by the default `Expr.__hash__`
(src/ufl/base.py lines 89-94): `(type(self), tt)` where `tt` pairs each
operand's class with its own operands' classes. Python's `hash` of equal
tuples is equal, so the hash is modelled by this key itself. -/
def hashKey (e : UExpr) : NType × List (NType × List NType) :=
  (e.nodeType, e.operands.map fun o => (o.nodeType, typetuple o))

/-- Python values in scope for cross-type comparisons: expression nodes
and native integer scalars. -/
inductive PyVal where
  | expr (e : UExpr)
  | pyInt (n : Int)

/-- Python `==` across expressions and native scalars: FloatValue
compares equal to a native scalar by value (src/ufl/base.py lines
196-197, reached directly or via reflected dispatch); ZeroType and
operator nodes are never equal to a native scalar. -/
def pyEq : PyVal → PyVal → Bool
  | .expr a, .expr b => exprEq a b
  | .expr (.floatV v), .pyInt n => decide (v = n)
  | .pyInt n, .expr (.floatV v) => decide (v = n)
  | .expr _, .pyInt _ => false
  | .pyInt _, .expr _ => false
  | .pyInt n, .pyInt m => decide (n = m)

/-- Hash values: expression nodes hash via the type-based key of
`Expr.__hash__`; a native int hashes by its value. -/
inductive PyHashVal where
  | exprKey (k : NType × List (NType × List NType))
  | intVal (n : Int)
deriving DecidableEq, Repr

/-- Python `hash(...)` over the two families of values. -/
def pyHash : PyVal → PyHashVal
  | .expr e => .exprKey (hashKey e)
  | .pyInt n => .intVal n

/-! ## Index algebra and the Indexed node (src/ufl/indexed.py) -/

/-- Modelled from the spec: index entities of `ufl.indexing` (not under
src). A *fixed index* is a concrete non-negative integer; a *symbolic
index* is unbound and identified by its count. -/
inductive IndexEntity where
  | fixed (value : Nat)
  | symbolic (count : Nat)
deriving DecidableEq, Repr

/-- A multi-index: an ordered sequence of index entities with a known
length (`multiindex._indices`). -/
abbrev MultiIndex := List IndexEntity

/-- The data of the wrapped expression that `Indexed.__init__` consults:
its `ufl_shape`, its `free_indices()` (counts of symbolic indices) and
its `index_dimensions()` mapping. -/
structure ExprData where
  shape : Shape
  freeIndices : List Nat
  indexDims : List (Nat × Nat)
deriving DecidableEq, Repr

/-- The symbolic entries of a multi-index, in order. -/
def symEntries (m : MultiIndex) : List Nat :=
  m.filterMap fun d =>
    match d with
    | .symbolic c => some c
    | .fixed _ => none

/-- Modelled from the spec: `unique_indices` of `ufl.indexutils` (not
under src). Per spec section 4.3 step 4, the free indices are the
set-deduplicated concatenation of the expression's free indices and the
multi-index's symbolic entries, with any index occurring twice (a
repeated, implicitly summed index) excluded from the free set; what
remains are the indices occurring exactly once, in order. -/
def uniqueIndices (l : List Nat) : List Nat :=
  l.filter fun i => decide (l.count i = 1)

/-- The dict comprehension of src/ufl/indexed.py lines 61-62: pairs
`(i, s)` from `zip(multiindex._indices, shape)` with `i` symbolic. -/
def symDims (shape : Shape) (m : MultiIndex) : List (Nat × Nat) :=
  (m.zip shape).filterMap fun p =>
    match p.1 with
    | .symbolic c => some (c, p.2)
    | .fixed _ => none

/-- Python `base.update(upd)` on dicts as association lists: keys of
`base` keep their position with values overwritten from `upd`; keys only
in `upd` are appended. -/
def dictUpdate (base upd : List (Nat × Nat)) : List (Nat × Nat) :=
  (base.map fun p =>
    match upd.lookup p.1 with
    | some v => (p.1, v)
    | none => p) ++
  upd.filter fun p => (base.lookup p.1).isNone

/-- The bounds check of src/ufl/indexed.py lines 56-58: some pair
`(si, di)` of `zip(shape, multiindex)` has `di` fixed with
`int(di) >= int(si)`. -/
def anyFixedOutOfRange (shape : Shape) (m : MultiIndex) : Bool :=
  (shape.zip m).any fun p =>
    match p.2 with
    | .fixed v => decide (p.1 ≤ v)
    | .symbolic _ => false

/-- An Indexed node: the stored operand pair plus the cached
`_free_indices` and `_index_dimensions` fields. -/
structure IndexedNode where
  expression : ExprData
  multiindex : MultiIndex
  freeIndicesCached : List Nat
  indexDimsCached : List (Nat × Nat)
deriving DecidableEq, Repr

/-- `Indexed.__init__` (src/ufl/indexed.py lines 37-68): validate the
index count against the rank, store the operands, bounds-check fixed
entries, then cache the free indices and index dimensions. The
isinstance checks on the operands are discharged by the Lean types. -/
def indexedMk (e : ExprData) (m : MultiIndex) : Except UflError IndexedNode :=
  if e.shape.length ≠ m.length then
    .error (.rankMismatch m.length e.shape.length)
  else if anyFixedOutOfRange e.shape m then
    .error .fixedIndexOutOfRange
  else
    .ok { expression := e
          multiindex := m
          freeIndicesCached := uniqueIndices (e.freeIndices ++ symEntries m)
          indexDimsCached := dictUpdate (symDims e.shape m) e.indexDims }

/-- `Indexed.free_indices` (src/ufl/indexed.py lines 79-80): return the
cached tuple. -/
def IndexedNode.free_indices (n : IndexedNode) : List Nat :=
  n.freeIndicesCached

/-- `Indexed.__getitem__` (src/ufl/indexed.py lines 103-104):
unconditionally raise, for any key. -/
def IndexedNode.getItem {κ : Type} (_ : IndexedNode) (_ : κ) :
    Except UflError IndexedNode :=
  .error .alreadyIndexed

/-! ## The Form aggregate (src/ufl/form.py) -/

/-- Modelled from the spec: integrand expressions as combined by the
form algebra. The operator overloads building sums and negations
(`a + b`, `-a`) are not under src; per spec sections 4.5 and 8, `+` is
the structural sum (rendered `a + b`) and negation flips the sign of an
integrand (rendered `-a`), with a double flip restoring the original so
that `-(-F)` has the same signature as `F`. -/
inductive FExpr where
  | base (name : String)
  | add (a b : FExpr)
  | neg (a : FExpr)
deriving DecidableEq, Repr

/-- Modelled from the spec: expression negation (`-a`, not under src) as
the sign flip of spec section 4.5, cancelling an existing flip. -/
def FExpr.negE : FExpr → FExpr
  | .neg a => a
  | a => .neg a

/-- Modelled from the spec: the reconstructive string of an integrand,
following the renderings used in spec section 8
(`"<x> + -<x>"`). -/
def FExpr.reprStr : FExpr → String
  | .base s => s
  | .add a b => a.reprStr ++ " + " ++ b.reprStr
  | .neg a => "-" ++ a.reprStr

/-- Integrands that are not already a double sign flip; every value the
modelled constructors `negE`, `add` and `base` produce from flip-free
inputs is of this form. -/
def FExpr.headCanonical : FExpr → Prop
  | .neg (.neg _) => False
  | _ => True

instance : DecidablePred FExpr.headCanonical := fun e =>
  match e with
  | .neg (.neg _) => isFalse id
  | .base _ => isTrue trivial
  | .add _ _ => isTrue trivial
  | .neg (.base _) => isTrue trivial
  | .neg (.add _ _) => isTrue trivial

/-- Modelled from the spec: a measure identifies an integration-domain
family (`domain_type`) plus a domain identifier (`domain_id`); measures
are the partition key for integral grouping (spec section 3,
ufl.integral is not under src). -/
structure Measure where
  domain_type : Nat
  domain_id : Nat
deriving DecidableEq, Repr

/-- Modelled from the spec: an integral is an (integrand, measure) pair
(spec section 3, ufl.integral is not under src). -/
structure Integral where
  integrand : FExpr
  measure : Measure
deriving DecidableEq, Repr

/-- Modelled from the spec: the integral's own "rebuild with new
integrand" operation — same measure metadata, new integrand. -/
def Integral.reconstruct (itg : Integral) (e : FExpr) : Integral :=
  ⟨e, itg.measure⟩

/-- Modelled from the spec: `-itg` on an integral flips the sign of the
integrand, keeping the measure (spec section 4.5). -/
def Integral.negI (itg : Integral) : Integral :=
  itg.reconstruct itg.integrand.negE

/-- Modelled from the spec: the reconstructive string of an integral,
an `Integral(repr(integrand), repr(measure))` rendering. -/
def Integral.reprStr (itg : Integral) : String :=
  "Integral(" ++ itg.integrand.reprStr ++ ", Measure(" ++
    toString itg.measure.domain_type ++ ", " ++
    toString itg.measure.domain_id ++ "))"

/-- A Form: its tuple of integrals (src/ufl/form.py line 44). The
memoized `_str`/`_repr`/`_hash` fields are lazily computed pure
functions of this tuple and are modelled by the functions below. -/
structure Form where
  integrals : List Integral
deriving DecidableEq, Repr

/-- `Form.__init__` (src/ufl/form.py lines 43-50): its only runtime
check is `ufl_assert(all(isinstance(itg, Integral) for itg in
integrals))`, which the typed argument satisfies by construction; in
particular no measure-duplication check is performed, so construction
always succeeds. -/
def formMk (integrals : List Integral) : Except UflError Form :=
  .ok ⟨integrals⟩

/-- The measures of a form's integrals, in order
(src/ufl/form.py lines 92-93). -/
def Form.measuresOf (f : Form) : List Measure :=
  f.integrals.map Integral.measure

/-- The integrals in a list over one given measure, in order. -/
def byMeasureL (l : List Integral) (m : Measure) : List Integral :=
  l.filter fun itg => decide (itg.measure = m)

/-- The integrals of a form over one given measure. -/
def Form.byMeasure (f : Form) (m : Measure) : List Integral :=
  byMeasureL f.integrals m

/-- One iteration of the accumulation loop of `Form.__add__`
(src/ufl/form.py lines 151-165) on the working list: an integral of the
right operand either replaces the (unique) entry with its measure by
`itg.reconstruct(a + b)` with `a` the entry's integrand, or is appended
when its measure is new. The `measure2idx` dict is rendered by locating
the first entry with the same measure. -/
def addStep : List Integral → Integral → List Integral
  | [], itg => [itg]
  | x :: xs, itg =>
    if x.measure = itg.measure then
      itg.reconstruct (FExpr.add x.integrand itg.integrand) :: xs
    else
      x :: addStep xs itg

/-- The integral list of `self + other` on the success path of
`Form.__add__`: start from the left operand's integrals and fold the
right operand's integrals through the accumulation loop. -/
def formAddResult (f g : Form) : Form :=
  ⟨g.integrals.foldl addStep f.integrals⟩

/-- `Form.__add__` (src/ufl/form.py lines 139-167): while building
`measure2idx` over the left operand's integrals it asserts that no
measure repeats ("Form invariant breached."); then it merges the right
operand's integrals by measure and wraps the result in a new Form. -/
def formAdd (f g : Form) : Except UflError Form :=
  if f.measuresOf.Nodup then
    .ok (formAddResult f g)
  else
    .error (.assertionFailed "Form invariant breached.")

/-- `Form.__neg__` (src/ufl/form.py lines 172-174):
`Form([-itg for itg in self._integrals])`. -/
def formNeg (f : Form) : Form :=
  ⟨f.integrals.map Integral.negI⟩

/-- `Form.__repr__` (src/ufl/form.py lines 194-197):
`"Form([%s])" % ", ".join(repr(itg) for itg in self._integrals)`. -/
def formRepr (f : Form) : String :=
  "Form([" ++ String.intercalate ", " (f.integrals.map Integral.reprStr) ++ "])"

/-- `Form.signature` (src/ufl/form.py lines 213-214): `repr(self)`. -/
def Form.signature (f : Form) : String :=
  formRepr f

/-- A form instance together with its mutable `_form_data` slot
(src/ufl/form.py lines 49, 118-133), for metadata of type `α`. -/
structure FormState (α : Type) where
  form : Form
  form_data : Option α

/-- `Form.compute_form_data` (src/ufl/form.py lines 122-133): when
`_form_data` is `None`, call the external preprocessing collaborator
(the parameter `preprocess`, out of scope per spec section 6) and store
its result, else leave the slot alone; return the stored metadata. The
third component counts how many times `preprocess` ran in this call. -/
def compute_form_data {α : Type} (preprocess : Form → α) (st : FormState α) :
    α × FormState α × Nat :=
  match st.form_data with
  | some d => (d, st, 0)
  | none => (preprocess st.form, ⟨st.form, some (preprocess st.form)⟩, 1)

/-- Combination of the at-most-one integrals over a given measure from
the two operands of `Form.__add__`: keep a lone integral, or accumulate
`y.reconstruct(x.integrand + y.integrand)` when both are present. -/
def mergeOne : List Integral → List Integral → List Integral
  | xs, [] => xs
  | [], ys => ys
  | x :: _, y :: _ => [y.reconstruct (FExpr.add x.integrand y.integrand)]

/-! ## Concrete sample data used by witnesses and counterexamples -/

/-- A cell measure with domain id 0. -/
def sampleMeasure : Measure := ⟨0, 0⟩

/-- An exterior-facet measure with domain id 0. -/
def sampleMeasureB : Measure := ⟨1, 0⟩

/-- An integral of the opaque integrand `u` over the cell measure. -/
def sampleIntegralU : Integral := ⟨FExpr.base "u", sampleMeasure⟩

/-- An integral of the opaque integrand `v` over the cell measure. -/
def sampleIntegralV : Integral := ⟨FExpr.base "v", sampleMeasure⟩

/-- A one-integral form over the cell measure. -/
def sampleFormU : Form := ⟨[sampleIntegralU]⟩

/-- Another one-integral form over the same cell measure. -/
def sampleFormV : Form := ⟨[sampleIntegralV]⟩

/-! ## Lemmas: zero-tensor cache -/

theorem zeroCacheWF_nil : ZeroCacheWF [] := by
  intro p hp
  simp at hp

theorem cacheLookup_mem (c : ZeroCache) (t : Shape) (z : ZeroType)
    (h : cacheLookup c t = some z) : (t, z) ∈ c := by
  induction c with
  | nil => simp [cacheLookup] at h
  | cons p rest ih =>
    obtain ⟨s, w⟩ := p
    by_cases hs : s = t
    · subst hs
      simp [cacheLookup] at h
      subst h
      exact List.mem_cons_self _ _
    · simp [cacheLookup, hs] at h
      exact List.mem_cons_of_mem _ (ih h)

theorem zero_tensor_hit {c : ZeroCache} {s : Shape} {z : ZeroType}
    (h : cacheLookup c s = some z) : zero_tensor c s = (z, c) := by
  unfold zero_tensor
  rw [h]

theorem zero_tensor_shape (c : ZeroCache) (s : Shape) (h : ZeroCacheWF c) :
    (zero_tensor c s).1.shape = s := by
  unfold zero_tensor
  cases hc : cacheLookup c s with
  | none => simp
  | some z =>
    simp only
    exact h _ (cacheLookup_mem c s z hc)

theorem zero_tensor_wf (c : ZeroCache) (s : Shape) (h : ZeroCacheWF c) :
    ZeroCacheWF (zero_tensor c s).2 := by
  unfold zero_tensor
  cases hc : cacheLookup c s with
  | none =>
    intro p hp
    rcases List.mem_cons.mp hp with h1 | h2
    · subst h1; rfl
    · exact h _ h2
  | some z => exact h

theorem zero_tensor_lookup_self (c : ZeroCache) (s : Shape) :
    cacheLookup (zero_tensor c s).2 s = some (zero_tensor c s).1 := by
  unfold zero_tensor
  cases hc : cacheLookup c s with
  | none => simp [cacheLookup]
  | some z => simpa using hc

/-! ## Lemmas: structural equality and the hash key -/

theorem exprEq_nodeType {a b : UExpr} (h : exprEq a b = true) :
    a.nodeType = b.nodeType := by
  cases a <;> cases b <;> simp [exprEq, UExpr.nodeType] at h ⊢
  exact h.1

theorem exprEq_operands {a b : UExpr} (h : exprEq a b = true) :
    exprListEq a.operands b.operands = true := by
  cases a <;> cases b <;> simp [exprEq, UExpr.operands, exprListEq] at h ⊢
  exact h.2

theorem exprListEq_map_nodeType {xs ys : List UExpr}
    (h : exprListEq xs ys = true) :
    xs.map UExpr.nodeType = ys.map UExpr.nodeType := by
  induction xs generalizing ys with
  | nil => cases ys <;> simp [exprListEq] at h ⊢
  | cons a as ih =>
    cases ys with
    | nil => simp [exprListEq] at h
    | cons b bs =>
      simp only [exprListEq, Bool.and_eq_true] at h
      simp [exprEq_nodeType h.1, ih h.2]

theorem exprEq_typetuple {a b : UExpr} (h : exprEq a b = true) :
    typetuple a = typetuple b :=
  exprListEq_map_nodeType (exprEq_operands h)

theorem exprListEq_map_hashPair {xs ys : List UExpr}
    (h : exprListEq xs ys = true) :
    (xs.map fun o => (o.nodeType, typetuple o)) =
      (ys.map fun o => (o.nodeType, typetuple o)) := by
  induction xs generalizing ys with
  | nil => cases ys <;> simp [exprListEq] at h ⊢
  | cons a as ih =>
    cases ys with
    | nil => simp [exprListEq] at h
    | cons b bs =>
      simp only [exprListEq, Bool.and_eq_true] at h
      simp [exprEq_nodeType h.1, exprEq_typetuple h.1, ih h.2]

/-! ## Lemmas: free indices of an Indexed node -/

theorem uniqueIndices_count (l : List Nat) (i : Nat) :
    (uniqueIndices l).count i = if l.count i = 1 then 1 else 0 := by
  unfold uniqueIndices
  by_cases h : l.count i = 1
  · rw [if_pos h, List.count_filter (by simpa using h), h]
  · rw [if_neg h, List.count_eq_zero]
    intro hmem
    have := (List.mem_filter.mp hmem).2
    simp at this
    exact h this

theorem uniqueIndices_nodup (l : List Nat) : (uniqueIndices l).Nodup := by
  rw [List.nodup_iff_count_le_one]
  intro a
  rw [uniqueIndices_count]
  split <;> simp

theorem mem_uniqueIndices (l : List Nat) (i : Nat) :
    i ∈ uniqueIndices l ↔ l.count i = 1 := by
  constructor
  · intro h
    have := (List.mem_filter.mp h).2
    simpa using this
  · intro h
    apply List.mem_filter.mpr
    refine ⟨List.count_pos_iff.mp (by rw [h]; exact Nat.one_pos), by simpa using h⟩

theorem fixedCheck_iff (p : Nat × IndexEntity) :
    ((match p.2 with
      | IndexEntity.fixed v => decide (p.1 ≤ v)
      | IndexEntity.symbolic _ => false) = true) ↔
      ∃ v, p.2 = IndexEntity.fixed v ∧ p.1 ≤ v := by
  obtain ⟨s, d⟩ := p
  cases d <;> simp

theorem anyFixedOutOfRange_iff (shape : Shape) (m : MultiIndex) :
    anyFixedOutOfRange shape m = true ↔
      ∃ p ∈ shape.zip m, ∃ v, p.2 = IndexEntity.fixed v ∧ p.1 ≤ v := by
  unfold anyFixedOutOfRange
  rw [List.any_eq_true]
  constructor
  · rintro ⟨p, hp, hc⟩
    exact ⟨p, hp, (fixedCheck_iff p).mp hc⟩
  · rintro ⟨p, hp, hc⟩
    exact ⟨p, hp, (fixedCheck_iff p).mpr hc⟩

/-! ## Lemmas: the addition merge of `Form.__add__` -/

theorem byMeasureL_nil (m : Measure) : byMeasureL [] m = [] := rfl

theorem byMeasureL_cons (x : Integral) (xs : List Integral) (m : Measure) :
    byMeasureL (x :: xs) m =
      if x.measure = m then x :: byMeasureL xs m else byMeasureL xs m := by
  by_cases h : x.measure = m <;> simp [byMeasureL, List.filter_cons, h]

theorem measure_of_mem_byMeasureL {l : List Integral} {m : Measure} {x : Integral}
    (h : x ∈ byMeasureL l m) : x.measure = m := by
  have := List.mem_filter.mp h
  simpa using this.2

theorem byMeasureL_eq_nil_of_not_mem {l : List Integral} {m : Measure}
    (h : m ∉ l.map Integral.measure) : byMeasureL l m = [] := by
  induction l with
  | nil => rfl
  | cons x xs ih =>
    simp only [List.map_cons, List.mem_cons, not_or] at h
    rw [byMeasureL_cons, if_neg (fun hh => h.1 hh.symm)]
    exact ih h.2

theorem byMeasureL_subsingleton {l : List Integral}
    (h : (l.map Integral.measure).Nodup) (m : Measure) :
    byMeasureL l m = [] ∨ ∃ x, byMeasureL l m = [x] := by
  induction l with
  | nil => exact Or.inl rfl
  | cons x xs ih =>
    simp only [List.map_cons, List.nodup_cons] at h
    rw [byMeasureL_cons]
    by_cases hm : x.measure = m
    · subst hm
      rw [if_pos rfl, byMeasureL_eq_nil_of_not_mem h.1]
      exact Or.inr ⟨x, rfl⟩
    · rw [if_neg hm]
      exact ih h.2

theorem addStep_byMeasureL_ne (l : List Integral) (itg : Integral) (m : Measure)
    (h : itg.measure ≠ m) :
    byMeasureL (addStep l itg) m = byMeasureL l m := by
  induction l with
  | nil =>
    simp [addStep, byMeasureL_cons, byMeasureL_nil, h]
  | cons x xs ih =>
    by_cases hx : x.measure = itg.measure
    · simp only [addStep, if_pos hx]
      rw [byMeasureL_cons, byMeasureL_cons]
      have : (itg.reconstruct (FExpr.add x.integrand itg.integrand)).measure =
          itg.measure := rfl
      rw [this, if_neg h, hx, if_neg h]
    · simp only [addStep, if_neg hx]
      rw [byMeasureL_cons, byMeasureL_cons, ih]

theorem addStep_byMeasureL_found (l : List Integral) (itg : Integral) (x : Integral)
    (h : byMeasureL l itg.measure = [x]) :
    byMeasureL (addStep l itg) itg.measure =
      [itg.reconstruct (FExpr.add x.integrand itg.integrand)] := by
  induction l with
  | nil => simp [byMeasureL_nil] at h
  | cons y ys ih =>
    by_cases hy : y.measure = itg.measure
    · rw [byMeasureL_cons, if_pos hy] at h
      have hyx : y = x := by
        injection h
      have hrest : byMeasureL ys itg.measure = [] := by
        injection h with h1 h2
      subst hyx
      simp only [addStep, if_pos hy]
      rw [byMeasureL_cons]
      have : (itg.reconstruct (FExpr.add y.integrand itg.integrand)).measure =
          itg.measure := rfl
      rw [this, if_pos rfl, hrest]
    · rw [byMeasureL_cons, if_neg hy] at h
      simp only [addStep, if_neg hy]
      rw [byMeasureL_cons, if_neg hy]
      exact ih h

theorem addStep_byMeasureL_notfound (l : List Integral) (itg : Integral)
    (h : byMeasureL l itg.measure = []) :
    byMeasureL (addStep l itg) itg.measure = [itg] := by
  induction l with
  | nil => simp [addStep, byMeasureL_cons, byMeasureL_nil]
  | cons y ys ih =>
    rw [byMeasureL_cons] at h
    by_cases hy : y.measure = itg.measure
    · rw [if_pos hy] at h
      exact absurd h (by simp)
    · rw [if_neg hy] at h
      simp only [addStep, if_neg hy]
      rw [byMeasureL_cons, if_neg hy]
      exact ih h

theorem mergeOne_nil_right (xs : List Integral) : mergeOne xs [] = xs := by
  cases xs <;> rfl

theorem foldl_addStep_byMeasure (itgs : List Integral) :
    ∀ (acc : List Integral) (m : Measure),
      (itgs.map Integral.measure).Nodup →
      (byMeasureL acc m = [] ∨ ∃ x, byMeasureL acc m = [x]) →
      byMeasureL (itgs.foldl addStep acc) m =
        mergeOne (byMeasureL acc m) (byMeasureL itgs m) := by
  induction itgs with
  | nil =>
    intro acc m _ _
    rw [List.foldl_nil, byMeasureL_nil, mergeOne_nil_right]
  | cons itg rest ih =>
    intro acc m hnd hone
    simp only [List.map_cons, List.nodup_cons] at hnd
    rw [List.foldl_cons, byMeasureL_cons]
    by_cases hm : itg.measure = m
    · subst hm
      have hrest : byMeasureL rest itg.measure = [] :=
        byMeasureL_eq_nil_of_not_mem hnd.1
      rw [if_pos rfl, hrest]
      rcases hone with hnone | ⟨x, hx⟩
      · rw [hnone]
        have hstep := addStep_byMeasureL_notfound acc itg hnone
        rw [ih (addStep acc itg) itg.measure hnd.2 (Or.inr ⟨itg, hstep⟩),
          hstep, hrest, mergeOne_nil_right]
        rfl
      · rw [hx]
        have hstep := addStep_byMeasureL_found acc itg x hx
        rw [ih (addStep acc itg) itg.measure hnd.2
            (Or.inr ⟨itg.reconstruct (FExpr.add x.integrand itg.integrand), hstep⟩),
          hstep, hrest, mergeOne_nil_right]
        rfl
    · rw [if_neg hm]
      have hstep := addStep_byMeasureL_ne acc itg m hm
      rw [ih (addStep acc itg) m hnd.2 (hstep ▸ hone), hstep]

/-! ## Lemmas: negation -/

theorem negE_negE {a : FExpr} (h : a.headCanonical) :
    a.negE.negE = a := by
  match a with
  | .base _ => rfl
  | .add _ _ => rfl
  | .neg (.base _) => rfl
  | .neg (.add _ _) => rfl
  | .neg (.neg _) => exact absurd h id

theorem negI_negI {itg : Integral} (h : itg.integrand.headCanonical) :
    itg.negI.negI = itg := by
  obtain ⟨e, m⟩ := itg
  simp only [Integral.negI, Integral.reconstruct]
  rw [negE_negE h]

/-! ## Claim theorems -/

/-- C1: Form addition `F1 + F2` merges the integral lists by measure:
for operands maintaining the no-duplicate-measure invariant, addition
succeeds, and for each measure present in both operands the result has
exactly one integral over that measure, whose integrand is the
structural sum of the left and right integrands for that measure (left
first) and whose measure metadata is copied from the left operand's
integral via the integral's rebuild-with-new-integrand operation; a
measure present in only one operand has its integral carried across
unchanged. -/
theorem form_add_merges_by_measure (f g : Form)
    (hf : f.measuresOf.Nodup) (hg : g.measuresOf.Nodup) :
    formAdd f g = .ok (formAddResult f g) ∧
    ∀ m : Measure,
      (∀ il ir, f.byMeasure m = [il] → g.byMeasure m = [ir] →
        (formAddResult f g).byMeasure m =
          [il.reconstruct (FExpr.add il.integrand ir.integrand)]) ∧
      (g.byMeasure m = [] → (formAddResult f g).byMeasure m = f.byMeasure m) ∧
      (f.byMeasure m = [] → (formAddResult f g).byMeasure m = g.byMeasure m) := by
  constructor
  · unfold formAdd
    rw [if_pos hf]
  · intro m
    have hsub := byMeasureL_subsingleton (l := f.integrals) hf m
    have base := foldl_addStep_byMeasure g.integrals f.integrals m hg hsub
    have hres : (formAddResult f g).byMeasure m =
        byMeasureL (g.integrals.foldl addStep f.integrals) m := rfl
    refine ⟨?_, ?_, ?_⟩
    · intro il ir hil hir
      unfold Form.byMeasure at hil hir
      have hilm : il.measure = m :=
        measure_of_mem_byMeasureL (l := f.integrals)
          (by rw [hil]; exact List.mem_singleton.mpr rfl)
      have hirm : ir.measure = m :=
        measure_of_mem_byMeasureL (l := g.integrals)
          (by rw [hir]; exact List.mem_singleton.mpr rfl)
      rw [hres, base, hil, hir]
      show [ir.reconstruct (FExpr.add il.integrand ir.integrand)] =
        [il.reconstruct (FExpr.add il.integrand ir.integrand)]
      simp only [Integral.reconstruct, hilm, hirm]
    · intro hgnil
      unfold Form.byMeasure at hgnil ⊢
      show byMeasureL (g.integrals.foldl addStep f.integrals) m =
        byMeasureL f.integrals m
      rw [base, hgnil, mergeOne_nil_right]
    · intro hfnil
      unfold Form.byMeasure at hfnil ⊢
      show byMeasureL (g.integrals.foldl addStep f.integrals) m =
        byMeasureL g.integrals m
      rw [base, hfnil]
      cases hb : byMeasureL g.integrals m <;> rfl

/-- Witness for C1: with `F1` holding integrand `u` over the cell
measure and `F2` holding integrand `v` over the same measure, `F1 + F2`
succeeds and its single integral over that measure is the left integral
rebuilt with the structural sum `u + v`. -/
theorem form_add_merges_by_measure_witness :
    formAdd sampleFormU sampleFormV = .ok (formAddResult sampleFormU sampleFormV) ∧
    (formAddResult sampleFormU sampleFormV).byMeasure sampleMeasure =
      [sampleIntegralU.reconstruct
        (FExpr.add sampleIntegralU.integrand sampleIntegralV.integrand)] := by
  have H := form_add_merges_by_measure sampleFormU sampleFormV (by decide) (by decide)
  exact ⟨H.1, (H.2 sampleMeasure).1 sampleIntegralU sampleIntegralV
    (by decide) (by decide)⟩

/-- Counterexample for C2: the Form constructor performs no
duplicate-measure check — constructing a form from two integrals over
the same measure succeeds instead of failing with an assertion
failure. -/
theorem form_constructor_accepts_duplicate_measures :
    sampleIntegralU.measure = sampleIntegralV.measure ∧
    formMk [sampleIntegralU, sampleIntegralV] =
      Except.ok ⟨[sampleIntegralU, sampleIntegralV]⟩ :=
  ⟨rfl, rfl⟩

/-- C2 (amended): the Form constructor accepts any integral list (its
only assertion, the integral-type check, is satisfied by construction);
the no-duplicate-measure assertion is instead performed by
`Form.__add__`, which fails with the hard assertion failure
"Form invariant breached." whenever the left operand's integral list
repeats a measure. -/
theorem form_duplicate_measure_asserted_in_add :
    (∀ l : List Integral, formMk l = Except.ok ⟨l⟩) ∧
    (∀ f g : Form, ¬ f.measuresOf.Nodup →
      formAdd f g =
        Except.error (UflError.assertionFailed "Form invariant breached.")) := by
  constructor
  · intro l
    rfl
  · intro f g h
    unfold formAdd
    rw [if_neg h]

/-- Witness for the amended C2: adding a form whose integral list
repeats the cell measure fails with the assertion failure. -/
theorem form_duplicate_measure_asserted_in_add_witness :
    formAdd ⟨[sampleIntegralU, sampleIntegralV]⟩ sampleFormU =
      Except.error (UflError.assertionFailed "Form invariant breached.") :=
  form_duplicate_measure_asserted_in_add.2
    ⟨[sampleIntegralU, sampleIntegralV]⟩ sampleFormU (by decide)

/-- C3: for an expression and a multi-index of matching rank, the free
indices of the resulting Indexed node are exactly the indices occurring
once across the concatenation of the expression's free indices and the
multi-index's symbolic entries — set-deduplicated, with any index
occurring twice (a repeated, summed index) excluded. -/
theorem indexed_free_indices_spec (e : ExprData) (m : MultiIndex)
    (node : IndexedNode) (h : indexedMk e m = Except.ok node) :
    node.free_indices.Nodup ∧
    (∀ i, i ∈ node.free_indices ↔
      (e.freeIndices ++ symEntries m).count i = 1) := by
  unfold indexedMk at h
  by_cases h1 : e.shape.length ≠ m.length
  · rw [if_pos h1] at h
    exact absurd h (by simp)
  · rw [if_neg h1] at h
    cases hb : anyFixedOutOfRange e.shape m
    · rw [hb, if_neg Bool.false_ne_true] at h
      injection h with h
      subst h
      refine ⟨uniqueIndices_nodup _, fun i => ?_⟩
      exact mem_uniqueIndices _ i
    · rw [hb, if_pos rfl] at h
      exact absurd h (by simp)

/-- Witness for C3: indexing a rank-1 expression with one symbolic
index (count 5) yields a node whose free indices contain that index;
when the wrapped expression already has index 5 free, the index is
repeated and absent from the node's free indices. -/
theorem indexed_free_indices_spec_witness :
    (5 ∈ IndexedNode.free_indices
      ⟨⟨[2], [], []⟩, [IndexEntity.symbolic 5], [5], [(5, 2)]⟩) ∧
    (5 ∉ IndexedNode.free_indices
      ⟨⟨[2], [5], []⟩, [IndexEntity.symbolic 5], [], [(5, 2)]⟩) := by
  constructor
  · exact ((indexed_free_indices_spec ⟨[2], [], []⟩ [IndexEntity.symbolic 5]
      ⟨⟨[2], [], []⟩, [IndexEntity.symbolic 5], [5], [(5, 2)]⟩ (by decide)).2 5).mpr
      (by decide)
  · intro hmem
    exact absurd (((indexed_free_indices_spec ⟨[2], [5], []⟩ [IndexEntity.symbolic 5]
      ⟨⟨[2], [5], []⟩, [IndexEntity.symbolic 5], [], [(5, 2)]⟩ (by decide)).2 5).mp hmem)
      (by decide)

/-- C4: for matching rank, constructing an Indexed node fails with the
fixed-index out-of-range error exactly when some (dimension, entry) pair
has a fixed entry whose value reaches the dimension, and succeeds
exactly when every fixed entry value is strictly below its dimension
(values are non-negative by construction). -/
theorem indexed_fixed_bounds (e : ExprData) (m : MultiIndex)
    (hlen : e.shape.length = m.length) :
    (indexedMk e m = Except.error UflError.fixedIndexOutOfRange ↔
      ∃ p ∈ e.shape.zip m, ∃ v, p.2 = IndexEntity.fixed v ∧ p.1 ≤ v) ∧
    ((∃ node, indexedMk e m = Except.ok node) ↔
      ∀ p ∈ e.shape.zip m, ∀ v, p.2 = IndexEntity.fixed v → v < p.1) := by
  have hne : ¬ e.shape.length ≠ m.length := by simp [hlen]
  constructor
  · constructor
    · intro herr
      by_contra hno
      have hb : anyFixedOutOfRange e.shape m = false := by
        rw [← Bool.not_eq_true]
        intro ht
        exact hno ((anyFixedOutOfRange_iff _ _).mp ht)
      unfold indexedMk at herr
      rw [if_neg hne, hb, if_neg Bool.false_ne_true] at herr
      exact absurd herr (by simp)
    · intro hex
      have hb : anyFixedOutOfRange e.shape m = true :=
        (anyFixedOutOfRange_iff _ _).mpr hex
      unfold indexedMk
      rw [if_neg hne, hb, if_pos rfl]
  · constructor
    · rintro ⟨node, hok⟩ p hp v hv
      by_contra hlt
      push_neg at hlt
      have hb : anyFixedOutOfRange e.shape m = true :=
        (anyFixedOutOfRange_iff _ _).mpr ⟨p, hp, v, hv, hlt⟩
      unfold indexedMk at hok
      rw [if_neg hne, hb, if_pos rfl] at hok
      exact absurd hok (by simp)
    · intro hall
      have hb : anyFixedOutOfRange e.shape m = false := by
        rw [← Bool.not_eq_true]
        intro ht
        obtain ⟨p, hp, v, hv, hle⟩ := (anyFixedOutOfRange_iff _ _).mp ht
        exact absurd (hall p hp v hv) (by omega)
      refine ⟨{ expression := e
                multiindex := m
                freeIndicesCached := uniqueIndices (e.freeIndices ++ symEntries m)
                indexDimsCached := dictUpdate (symDims e.shape m) e.indexDims }, ?_⟩
      unfold indexedMk
      rw [if_neg hne, hb, if_neg Bool.false_ne_true]

/-- Witness for C4: indexing a dimension-3 axis with fixed index 2
succeeds, and with fixed index 3 fails with the out-of-range error. -/
theorem indexed_fixed_bounds_witness :
    indexedMk ⟨[3], [], []⟩ [IndexEntity.fixed 2] =
      Except.ok ⟨⟨[3], [], []⟩, [IndexEntity.fixed 2], [], []⟩ ∧
    indexedMk ⟨[3], [], []⟩ [IndexEntity.fixed 3] =
      Except.error UflError.fixedIndexOutOfRange := by
  refine ⟨by decide, ?_⟩
  exact (indexed_fixed_bounds ⟨[3], [], []⟩ [IndexEntity.fixed 3] (by decide)).1.mpr
    ⟨(3, IndexEntity.fixed 3), by decide, 3, rfl, by decide⟩

/-- C7: constructing an Indexed node from a multi-index whose length
differs from the expression's rank fails with a rank-mismatch error
carrying both the number of indices supplied and the required rank. -/
theorem indexed_rank_mismatch (e : ExprData) (m : MultiIndex)
    (h : m.length ≠ e.shape.length) :
    indexedMk e m = Except.error (UflError.rankMismatch m.length e.shape.length) := by
  unfold indexedMk
  rw [if_pos (fun hh => h hh.symm)]

/-- Witness for C7: indexing a rank-1 expression with an empty
multi-index fails with a rank-mismatch error naming 0 supplied indices
and required rank 1. -/
theorem indexed_rank_mismatch_witness :
    indexedMk ⟨[3], [], []⟩ [] =
      Except.error (UflError.rankMismatch 0 1) :=
  indexed_rank_mismatch ⟨[3], [], []⟩ [] (by decide)

/-- C9: applying `__getitem__` to an already-indexed node fails
unconditionally, for every node and every key: an Indexed node can never
be further indexed. -/
theorem indexed_getitem_always_fails {κ : Type} (n : IndexedNode) (key : κ) :
    n.getItem key = Except.error UflError.alreadyIndexed :=
  rfl

/-- C5: for every shape, two successive calls to the zero-tensor
factory return the same canonical object — the second call hits the
cache filled by the first and leaves the cache unchanged — and zero
tensors produced for different shapes are never equal under ZeroType's
equality operator. -/
theorem zero_tensor_canonical (c1 c2 : ZeroCache) (s t : Shape)
    (h1 : ZeroCacheWF c1) (h2 : ZeroCacheWF c2) :
    (zero_tensor ((zero_tensor c1 s).2) s).1 = (zero_tensor c1 s).1 ∧
    (zero_tensor ((zero_tensor c1 s).2) s).2 = (zero_tensor c1 s).2 ∧
    (s ≠ t →
      ZeroType.eqOp (zero_tensor c1 s).1 (zero_tensor c2 t).1 = false) := by
  have hsecond := zero_tensor_hit (zero_tensor_lookup_self c1 s)
  refine ⟨by rw [hsecond], by rw [hsecond], ?_⟩
  intro hst
  unfold ZeroType.eqOp
  rw [zero_tensor_shape c1 s h1, zero_tensor_shape c2 t h2]
  simp [hst]

/-- Witness for C5: from the empty cache, requesting the zero tensor of
shape (2,) twice returns the same object, and the zero tensors of shapes
(2,) and (3,) are not equal. -/
theorem zero_tensor_canonical_witness :
    (zero_tensor ((zero_tensor [] [2]).2) [2]).1 = (zero_tensor [] [2]).1 ∧
    ZeroType.eqOp (zero_tensor [] [2]).1 (zero_tensor [] [3]).1 = false := by
  have H := zero_tensor_canonical [] [] [2] [3] zeroCacheWF_nil zeroCacheWF_nil
  exact ⟨H.1, H.2.2 (by decide)⟩

/-- C6: the double negation `-(-F)` of a form has the same signature
(canonical reconstructive string representation) as `F`, for forms whose
integrands are producible by the modelled constructors (not already a
double sign flip at the head). -/
theorem form_double_neg_signature (f : Form)
    (h : ∀ itg ∈ f.integrals, itg.integrand.headCanonical) :
    (formNeg (formNeg f)).signature = f.signature := by
  have hmap : ∀ (l : List Integral),
      (∀ itg ∈ l, itg.integrand.headCanonical) →
      (l.map Integral.negI).map Integral.negI = l := by
    intro l hl
    induction l with
    | nil => rfl
    | cons x xs ih =>
      simp only [List.map_cons]
      rw [negI_negI (hl x (List.mem_cons_self x xs)),
        ih (fun itg hi => hl itg (List.mem_cons_of_mem x hi))]
  have hform : formNeg (formNeg f) = f := by
    obtain ⟨l⟩ := f
    show (⟨(l.map Integral.negI).map Integral.negI⟩ : Form) = ⟨l⟩
    rw [hmap l h]
  rw [hform]

/-- Witness for C6: the double negation of the sample one-integral form
has the same signature as the form itself. -/
theorem form_double_neg_signature_witness :
    (formNeg (formNeg sampleFormU)).signature = sampleFormU.signature :=
  form_double_neg_signature sampleFormU (by decide)

/-- C8: `compute_form_data` delegates to the external preprocessing
collaborator and caches the result on the first call (one collaborator
invocation), returns a cached metadata object unchanged with zero
invocations, and hence a repeated call returns exactly the metadata of
the first call without recomputation. -/
theorem compute_form_data_idempotent {α : Type} (pp : Form → α)
    (st : FormState α) :
    (st.form_data = none →
      compute_form_data pp st =
        (pp st.form, ⟨st.form, some (pp st.form)⟩, 1)) ∧
    (∀ d, st.form_data = some d → compute_form_data pp st = (d, st, 0)) ∧
    compute_form_data pp (compute_form_data pp st).2.1 =
      ((compute_form_data pp st).1, (compute_form_data pp st).2.1, 0) := by
  obtain ⟨f, fd⟩ := st
  cases fd with
  | none =>
    refine ⟨fun _ => rfl, fun d hd => ?_, rfl⟩
    exact absurd hd (by simp)
  | some d =>
    refine ⟨fun hn => absurd hn (by simp), fun d' hd => ?_, rfl⟩
    have : d = d' := by
      injection hd
    subst this
    rfl

/-- Witness for C8: on a fresh form state the first call invokes the
collaborator once and caches 1 (the integral count of the sample
form). -/
theorem compute_form_data_idempotent_witness :
    compute_form_data (fun frm => frm.integrals.length)
        (⟨sampleFormU, none⟩ : FormState Nat) =
      (1, ⟨sampleFormU, some 1⟩, 1) := by
  have H := compute_form_data_idempotent (fun frm => frm.integrals.length)
    (⟨sampleFormU, none⟩ : FormState Nat)
  exact H.1 rfl

/-- C10: structurally equal expressions have equal hashes — the default
`Expr.__hash__` depends only on the node's type and the types of its
operands and their operands, so equality implies hash equality — the
hash is much coarser than equality (two unequal FloatValues share a
hash key), and the congruence does not extend to FloatValue's cross-type
equality with Python numeric scalars, whose hash is value-based. -/
theorem expr_eq_implies_hash_eq :
    (∀ a b : UExpr, exprEq a b = true → hashKey a = hashKey b) ∧
    (hashKey (UExpr.floatV 1) = hashKey (UExpr.floatV 2) ∧
      exprEq (UExpr.floatV 1) (UExpr.floatV 2) = false) ∧
    (pyEq (PyVal.expr (UExpr.floatV 2)) (PyVal.pyInt 2) = true ∧
      pyHash (PyVal.expr (UExpr.floatV 2)) ≠ pyHash (PyVal.pyInt 2)) := by
  refine ⟨?_, ⟨rfl, by decide⟩, by decide, by decide⟩
  intro a b h
  unfold hashKey
  rw [exprEq_nodeType h, exprListEq_map_hashPair (exprEq_operands h)]

/-- Witness for C10: a concrete pair of structurally equal operator
nodes (same class, same operand classes) has equal hash keys. -/
theorem expr_eq_implies_hash_eq_witness :
    hashKey (UExpr.opNode 3 [UExpr.floatV 1, UExpr.zeroT [2]]) =
      hashKey (UExpr.opNode 3 [UExpr.floatV 1, UExpr.zeroT [2]]) :=
  expr_eq_implies_hash_eq.1 _ _ (by decide)

end UflSpec
